import Mathlib

/-!
Verification of the decision core of `thetagang/portfolio_manager.py`.

The Python source is shallowly embedded: prices, deltas, weights and P&L
fractions become `ℚ`; days-to-expiration values become `ℤ`; the Python
`math.floor` and floor division `//` become `Int.floor` (`⌊·⌋`, rounding
toward negative infinity, exactly as in Python); fallible code returns
`Except String`.  The Python `sorted` is a stable sort, and for a total
preorder the stably sorted permutation is unique, so it is modelled by the
structurally recursive stable sort `List.insertionSort`; `reversed(...)`
becomes `List.reverse`.  Python string tests (`str.startswith`, string
ordering) are modelled on the character lists of the strings.

The utilities `option_dte` (from `thetagang.options`) and `position_pnl`
(from `thetagang.util`) are imported by the source file but defined outside
it; they are passed as function parameters (`option_dte : String → ℤ`,
`position_pnl : Position → ℚ`) and every theorem quantifies over them.
Market-gateway calls (`reqTickers`, `qualifyContracts`, `reqSecDefOptParams`,
`reqMktData`) are modelled as input data: the underlying market price, the
option chain, and a quote function `OptionContract → Ticker` whose
open-interest fields are already populated (the source blocks until they
are).
-/

attribute [local semireducible] Rat.add Rat.mul Rat.inv Rat.sub

namespace ThetaGang

/-- Python `p.startswith(q)`: the characters of `q` are a prefix of the
characters of `p`. -/
def pyStartsWith (s pat : String) : Bool :=
  pat.data.isPrefixOf s.data

/-- Python string `<` (lexicographic by code point), on character lists. -/
def pyStrLtChars : List Char → List Char → Bool
  | [], [] => false
  | [], _ :: _ => true
  | _ :: _, [] => false
  | a :: as, b :: bs => if a < b then true else if b < a then false else pyStrLtChars as bs

/-- Python string `<=`. -/
def pyStrLe (a b : String) : Bool :=
  !(pyStrLtChars b.data a.data)

/-- Python list slice `l[:n]` for a nonnegative `n`: the first
`min n l.length` elements. -/
def pySliceFromStart (n : Nat) (l : List α) : List α :=
  l.take n

/-- Python list slice `l[-n:]` for a nonnegative `n`.  In Python `-0` is `0`,
so for `n = 0` this is `l[0:] = l` (the whole list); for `n > 0` it is the
last `min n l.length` elements. -/
def pySliceFromEnd (n : Nat) (l : List α) : List α :=
  if n = 0 then l else l.drop (l.length - n)

/-- Model greeks attached to a ticker; `delta` is `none` when the model
delta is missing (Python `None`). -/
structure ModelGreeks where
  delta : Option ℚ
deriving DecidableEq

/-- An option contract (`ib_insync.contract.Option`): the fields the core
reads or writes. -/
structure OptionContract where
  symbol : String
  lastTradeDateOrContractMonth : String
  strike : ℚ
  right : String
  exchange : String
  tradingClass : String
deriving DecidableEq

/-- A market-data ticker for one contract, as consumed by the selector.
`modelGreeks` is `none` when the Python `ticker.modelGreeks` is `None`.  The
open-interest fields model the values after the blocking wait of the source for
them to populate. -/
structure Ticker where
  contract : OptionContract
  marketPrice : ℚ
  modelGreeks : Option ModelGreeks
  putOpenInterest : ℚ
  callOpenInterest : ℚ
deriving DecidableEq

/-- A portfolio position holding an option contract. -/
structure Position where
  contract : OptionContract
  position : ℚ
  marketValue : ℚ
  averageCost : ℚ
deriving DecidableEq

/-- A portfolio position holding stock, as used by the allocation
calculator (`check_if_can_write_puts`). -/
structure StockPosition where
  symbol : String
  marketValue : ℚ
  position : ℚ
deriving DecidableEq

/-- One entry of `reqSecDefOptParams` for the underlying: the option chain
at one venue. -/
structure OptionChain where
  tradingClass : String
  strikes : List ℚ
  expirations : List String
deriving DecidableEq

/-- The `roll_when` section of the configuration. -/
structure RollWhen where
  dte : ℤ
  pnl : ℚ
deriving DecidableEq

/-- The configuration keys read by `find_eligible_contracts`:
`target.dte`, `target.delta`, `target.minimum_open_interest`,
`option_chains.expirations` and `option_chains.strikes`. -/
structure SelectorConfig where
  target_dte : ℤ
  target_delta : ℚ
  minimum_open_interest : ℚ
  option_chains_expirations : Nat
  option_chains_strikes : Nat
deriving DecidableEq

/-- Source lines 41-44.  `put_is_itm` compares the contract strike with the
current market price of the underlying (fetched from the gateway, here a
parameter): the put is in the money when `strike >= marketPrice`. -/
def put_is_itm (contract : OptionContract) (marketPrice : ℚ) : Bool :=
  decide (contract.strike ≥ marketPrice)

/-- Source lines 46-68.  A put can be rolled when it is not in the money
and either its days-to-expiration is at most `roll_when.dte` or its P&L
fraction is at least `roll_when.pnl`.  `option_dte` and `position_pnl` are
the external utilities, passed as parameters. -/
def put_can_be_rolled (roll_when : RollWhen) (option_dte : String → ℤ)
    (position_pnl : Position → ℚ) (marketPrice : ℚ) (put : Position) : Bool :=
  if put_is_itm put.contract marketPrice then false
  else if option_dte put.contract.lastTradeDateOrContractMonth ≤ roll_when.dte then true
  else if position_pnl put ≥ roll_when.pnl then true
  else false

/-- Source lines 70-88.  Identical to the put rule but with no
in-the-money check. -/
def call_can_be_rolled (roll_when : RollWhen) (option_dte : String → ℤ)
    (position_pnl : Position → ℚ) (call : Position) : Bool :=
  if option_dte call.contract.lastTradeDateOrContractMonth ≤ roll_when.dte then true
  else if position_pnl call ≥ roll_when.pnl then true
  else false

/-- C2: for every put position whose contract strike is at least the
current market price of the underlying (in the money), `put_can_be_rolled`
returns `false`, regardless of the days-to-expiration and P&L
values (hence in particular when the strike strictly exceeds the price). -/
theorem put_can_be_rolled_false_of_itm (roll_when : RollWhen)
    (option_dte : String → ℤ) (position_pnl : Position → ℚ)
    (marketPrice : ℚ) (put : Position)
    (h : marketPrice ≤ put.contract.strike) :
    put_can_be_rolled roll_when option_dte position_pnl marketPrice put = false := by
  simp only [put_can_be_rolled, put_is_itm, ge_iff_le]
  rw [decide_eq_true h]
  simp

theorem put_can_be_rolled_false_of_itm_witness :
    put_can_be_rolled ⟨21, 9/10⟩ (fun _ => 0) (fun _ => 1) 90
      ⟨⟨"AAPL", "20300118", 95, "P", "SMART", "AAPL"⟩, -1, 5, 3⟩ = false :=
  put_can_be_rolled_false_of_itm ⟨21, 9/10⟩ (fun _ => 0) (fun _ => 1) 90
    ⟨⟨"AAPL", "20300118", 95, "P", "SMART", "AAPL"⟩, -1, 5, 3⟩ (by norm_num)

/-- C3: for every call position, and for every put position that is not in
the money, the roll evaluator returns `true` exactly when
`dte ≤ roll_when.dte` or `pnl ≥ roll_when.pnl`; the two thresholds are
independently sufficient. -/
theorem roll_thresholds_independently_sufficient (roll_when : RollWhen)
    (option_dte : String → ℤ) (position_pnl : Position → ℚ)
    (marketPrice : ℚ) (put call : Position) :
    (put.contract.strike < marketPrice →
      (put_can_be_rolled roll_when option_dte position_pnl marketPrice put = true ↔
        option_dte put.contract.lastTradeDateOrContractMonth ≤ roll_when.dte ∨
          position_pnl put ≥ roll_when.pnl)) ∧
    (call_can_be_rolled roll_when option_dte position_pnl call = true ↔
      option_dte call.contract.lastTradeDateOrContractMonth ≤ roll_when.dte ∨
        position_pnl call ≥ roll_when.pnl) := by
  constructor
  · intro hlt
    simp only [put_can_be_rolled, put_is_itm, ge_iff_le]
    rw [decide_eq_false (not_le.mpr hlt)]
    simp only [Bool.false_eq_true, if_false]
    split_ifs <;> simp_all
  · simp only [call_can_be_rolled, ge_iff_le]
    split_ifs <;> simp_all

theorem roll_thresholds_independently_sufficient_witness :
    put_can_be_rolled ⟨21, 9/10⟩
      (fun e => if e = "20300118" then 21 else 100)
      (fun p => if p.contract.strike = 95 then 0 else 9/10) 100
      ⟨⟨"AAPL", "20300118", 95, "P", "SMART", "AAPL"⟩, -1, 5, 3⟩ = true ∧
    call_can_be_rolled ⟨21, 9/10⟩
      (fun e => if e = "20300118" then 21 else 100)
      (fun p => if p.contract.strike = 95 then 0 else 9/10)
      ⟨⟨"AAPL", "20991231", 200, "C", "SMART", "AAPL"⟩, -1, 5, 3⟩ = true := by
  have h := roll_thresholds_independently_sufficient ⟨21, 9/10⟩
    (fun e => if e = "20300118" then 21 else 100)
    (fun p => if p.contract.strike = 95 then 0 else 9/10) 100
    ⟨⟨"AAPL", "20300118", 95, "P", "SMART", "AAPL"⟩, -1, 5, 3⟩
    ⟨⟨"AAPL", "20991231", 200, "C", "SMART", "AAPL"⟩, -1, 5, 3⟩
  exact ⟨(h.1 (by norm_num)).mpr (Or.inl (by decide)), h.2.mpr (Or.inr (by decide))⟩

/-- Source lines 90-95.  The Python `filter_positions` iterates the key
view of the caller dict and executes `del portfolio_positions[k]` for the
keys not in `config["symbols"]`.  CPython raises
`RuntimeError: dictionary changed size during iteration` at the very next
iteration step after a deletion (the size check in the dict iterator
precedes the exhaustion check), so at most the first out-of-scope key is
ever deleted: when every key is configured the loop completes and the
same, unchanged mapping is returned; otherwise the first out-of-scope key
is removed from the dict in place and the RuntimeError propagates, so the
function never returns.  The first component is the returned value or the
propagated error; the second is the caller mapping after the call. -/
def filter_positions (config_symbols : List String) :
    List (String × List Position) →
    Except String (List (String × List Position)) × List (String × List Position)
  | [] => (Except.ok [], [])
  | kv :: rest =>
    if config_symbols.contains kv.1 then
      match filter_positions config_symbols rest with
      | (Except.ok r, post) => (Except.ok (kv :: r), kv :: post)
      | (Except.error e, post) => (Except.error e, kv :: post)
    else
      (Except.error "RuntimeError: dictionary changed size during iteration", rest)

/-- Source line 268 (`position.contract.exchange = "SMART"` inside
`roll_positions`): the effect of the in-place field assignment on the
stored position. -/
def roll_position_exchange_update (position : Position) : Position :=
  { position with contract := { position.contract with exchange := "SMART" } }

/-- Source lines 207-216.  `remaining_buying_power` is the floor of the
minimum of `BuyingPower` and
`ExcessLiquidity - NetLiquidation * minimum_cushion`
(`math.floor` rounds toward negative infinity). -/
def remaining_buying_power (buying_power excess_liquidity net_liquidation
    minimum_cushion : ℚ) : ℤ :=
  ⌊min buying_power (excess_liquidity - net_liquidation * minimum_cushion)⌋

/-- Source lines 218-222.  `total_value` sums `marketValue * position`
over the stock positions and adds the remaining buying power. -/
def total_value (stocks : List StockPosition) (rbp : ℤ) : ℚ :=
  (stocks.map fun s => s.marketValue * s.position).sum + (rbp : ℚ)

/-- Source line 237: `targets[symbol] = weight * total_value`. -/
def target_value (weight totalValue : ℚ) : ℚ :=
  weight * totalValue

/-- Source lines 238-245.
`target_additional_quantity[symbol] = math.floor(targets[symbol] / price)`,
minus the currently held stock quantity when the symbol is held
(`held = some q`); no subtraction happens when it is not.  The result is
a Python float, hence `ℚ`. -/
def target_additional_quantity (weight totalValue price : ℚ)
    (held : Option ℚ) : ℚ :=
  ((⌊target_value weight totalValue / price⌋ : ℤ) : ℚ) - held.getD 0

/-- Source line 250: `target_put_count = target_additional_quantity[symbol] // 100`,
Python floor division (toward negative infinity). -/
def target_put_count (targetAdditionalShares : ℚ) : ℤ :=
  ⌊targetAdditionalShares / 100⌋

/-- Rounding toward zero, as the spec words "floored toward zero"
describe the share and contract counts.  This is the definition stated by
the claim, to be compared with the `math.floor` / `//` of the source. -/
def floor_toward_zero (q : ℚ) : ℤ :=
  if 0 ≤ q then ⌊q⌋ else ⌈q⌉

/-- Source lines 248-252.  The per-symbol put-writing loop of
`check_if_can_write_puts`: for each symbol whose open put count is below
the target, `write_puts` is invoked.  The loop body has no exception
handler, so an error from `write_puts` propagates and ends the iteration.
The second component is the trace of symbols for which `write_puts` was
invoked. -/
def check_put_writes (put_count target_put_count_of : String → ℤ)
    (write : String → Except String Unit) :
    List String → Except String Unit × List String
  | [] => (Except.ok (), [])
  | symbol :: rest =>
    if put_count symbol < target_put_count_of symbol then
      match write symbol with
      | Except.error e => (Except.error e, [symbol])
      | Except.ok _ =>
        let r := check_put_writes put_count target_put_count_of write rest
        (r.1, symbol :: r.2)
    else check_put_writes put_count target_put_count_of write rest

/-- Source lines 262-311.  The per-position loop of `roll_positions`: for
each position it calls `find_eligible_contracts` for the symbol of the
position (which may raise) and then builds and submits the combo order.
The loop body has no exception handler, so an error propagates and ends
the iteration; only selection success or failure and the iteration trace
(second component) are modelled. -/
def roll_positions_loop (find : String → Except String Ticker) :
    List Position → Except String Unit × List Position
  | [] => (Except.ok (), [])
  | position :: rest =>
    match find position.contract.symbol with
    | Except.error e => (Except.error e, [position])
    | Except.ok _ =>
      let r := roll_positions_loop find rest
      (r.1, position :: r.2)

/-- C5 counterexample: with `weight = 1/10` and `totalValue = -500` the
quotient `target / price` at `price = 100` is `-1/2`; the source computes
`math.floor(-1/2) = -1` where the floor-toward-zero of the claim gives `0`,
and likewise `target_additional_shares = -50` gives `-50 // 100 = -1`,
not `0`.  So the counts are not floored toward zero. -/
theorem allocation_floor_counterexample :
    target_value (1/10) (-500) / 100 = -1/2 ∧
    target_additional_quantity (1/10) (-500) 100 none = -1 ∧
    floor_toward_zero (target_value (1/10) (-500) / 100) = 0 ∧
    target_put_count (-50) = -1 ∧
    floor_toward_zero ((-50 : ℚ) / 100) = 0 := by
  refine ⟨by norm_num [target_value], ?_, ?_, ?_, ?_⟩
  · norm_num [target_additional_quantity, target_value]
  · norm_num [floor_toward_zero, target_value]
  · norm_num [target_put_count]
  · norm_num [floor_toward_zero]

/-- C5 (amended): every share and contract count is floored toward
negative infinity (Python `math.floor` / `//`): the count never exceeds
the exact quotient, and differs from it by less than one; when the
quotient is nonnegative this agrees with the floor-toward-zero of the claim. -/
theorem allocation_counts_floored (weight totalValue price
    targetAdditionalShares : ℚ) :
    (target_additional_quantity weight totalValue price none ≤
      target_value weight totalValue / price) ∧
    (target_value weight totalValue / price - 1 <
      target_additional_quantity weight totalValue price none) ∧
    ((target_put_count targetAdditionalShares : ℚ) ≤ targetAdditionalShares / 100) ∧
    (0 ≤ target_value weight totalValue / price →
      target_additional_quantity weight totalValue price none =
        ((floor_toward_zero (target_value weight totalValue / price) : ℤ) : ℚ)) ∧
    (0 ≤ targetAdditionalShares / 100 →
      target_put_count targetAdditionalShares =
        floor_toward_zero (targetAdditionalShares / 100)) := by
  refine ⟨?_, ?_, ?_, ?_, ?_⟩
  · simpa [target_additional_quantity] using Int.floor_le (target_value weight totalValue / price)
  · simp only [target_additional_quantity, Option.getD_none, sub_zero]
    exact Int.sub_one_lt_floor (target_value weight totalValue / price)
  · exact Int.floor_le _
  · intro h
    simp [target_additional_quantity, floor_toward_zero, h]
  · intro h
    simp [target_put_count, floor_toward_zero, h]

theorem allocation_counts_floored_witness :
    target_additional_quantity (1/10) 500000 50 none =
      ((floor_toward_zero (target_value (1/10) 500000 / 50) : ℤ) : ℚ) ∧
    target_put_count 800 = floor_toward_zero ((800 : ℚ) / 100) := by
  have h := allocation_counts_floored (1/10) 500000 50 800
  exact ⟨h.2.2.2.1 (by norm_num [target_value]), h.2.2.2.2 (by norm_num)⟩

/-- C6 counterexample: with the account summary
`BuyingPower = 1000000`, `ExcessLiquidity = 0`, `NetLiquidation = 1000000`,
`minimum_cushion = 1/2` and no stock positions, the total value is
`-500000`; at price `100` and no held shares, raising the weight from
`1/10` to `2/10` lowers `target_additional_quantity` from `-500` to
`-1000`.  Increasing the weight can decrease the target. -/
theorem weight_monotonicity_counterexample :
    remaining_buying_power 1000000 0 1000000 (1/2) = -500000 ∧
    total_value [] (remaining_buying_power 1000000 0 1000000 (1/2)) = -500000 ∧
    (1 : ℚ)/10 ≤ 2/10 ∧
    target_additional_quantity (2/10)
        (total_value [] (remaining_buying_power 1000000 0 1000000 (1/2))) 100 none <
      target_additional_quantity (1/10)
        (total_value [] (remaining_buying_power 1000000 0 1000000 (1/2))) 100 none := by
  have h1 : remaining_buying_power 1000000 0 1000000 (1/2) = -500000 := by
    norm_num [remaining_buying_power]
  have h2 : total_value [] (remaining_buying_power 1000000 0 1000000 (1/2)) = -500000 := by
    rw [h1]; norm_num [total_value]
  refine ⟨h1, h2, by norm_num, ?_⟩
  rw [h2]
  norm_num [target_additional_quantity, target_value]

/-- C6 (amended): with everything else fixed and provided the computed
total value is nonnegative and the market price positive, increasing a
configured weight of a symbol never decreases its
`target_additional_quantity`.  (Without the restriction the claim fails,
as the counterexample account shows.) -/
theorem target_additional_quantity_monotone_in_weight
    (weight weightBigger price : ℚ) (stocks : List StockPosition) (rbp : ℤ)
    (held : Option ℚ) (hw : weight ≤ weightBigger)
    (htv : 0 ≤ total_value stocks rbp) (hp : 0 < price) :
    target_additional_quantity weight (total_value stocks rbp) price held ≤
      target_additional_quantity weightBigger (total_value stocks rbp) price held := by
  unfold target_additional_quantity target_value
  have hmul : weight * total_value stocks rbp ≤ weightBigger * total_value stocks rbp :=
    mul_le_mul_of_nonneg_right hw htv
  have hdiv : weight * total_value stocks rbp / price ≤
      weightBigger * total_value stocks rbp / price :=
    (div_le_div_iff_of_pos_right hp).mpr hmul
  have hfl := Int.floor_le_floor hdiv
  exact sub_le_sub_right (by exact_mod_cast hfl) _

theorem target_additional_quantity_monotone_in_weight_witness :
    target_additional_quantity (1/10) (total_value [] 500000) 50 (some 200) ≤
      target_additional_quantity (2/10) (total_value [] 500000) 50 (some 200) :=
  target_additional_quantity_monotone_in_weight (1/10) (2/10) 50 [] 500000
    (some 200) (by norm_num) (by norm_num [total_value]) (by norm_num)

/-- C8 counterexample: a snapshot holding one out-of-scope symbol.  After
`filter_positions` runs with an empty configured-symbol set, the caller
mapping is no longer the original mapping (the key was deleted in place)
and no filtered copy is ever returned - the call ends in the CPython
RuntimeError; moreover the field assignment in the roll loop changes the
stored contract field `exchange` from `"NYSE"` to `"SMART"`.  The
snapshot is mutated, not copied. -/
theorem snapshot_immutability_counterexample :
    (filter_positions []
        [("X", [⟨⟨"X", "20300118", 100, "P", "NYSE", "X"⟩, -1, 5, 3⟩])]).2 ≠
      [("X", [⟨⟨"X", "20300118", 100, "P", "NYSE", "X"⟩, -1, 5, 3⟩])] ∧
    (filter_positions []
        [("X", [⟨⟨"X", "20300118", 100, "P", "NYSE", "X"⟩, -1, 5, 3⟩])]).1 =
      Except.error "RuntimeError: dictionary changed size during iteration" ∧
    (roll_position_exchange_update
        ⟨⟨"X", "20300118", 100, "P", "NYSE", "X"⟩, -1, 5, 3⟩).contract.exchange ≠
      (⟨⟨"X", "20300118", 100, "P", "NYSE", "X"⟩, -1, 5, 3⟩ :
        Position).contract.exchange := by
  refine ⟨by simp [filter_positions], rfl, by simp [roll_position_exchange_update]⟩

/-- C8 (amended): the snapshot is not treated as an immutable value and
no filtered copy is produced.  When every key of the snapshot is in the
configured symbols, `filter_positions` completes and returns the very
mapping it was given, unchanged.  As soon as one key is out of scope, the
first such key is deleted from the caller mapping in place and the
iteration faults with the CPython RuntimeError, so the function never
returns and no further key is removed.  Additionally, the roll loop
overwrites the contract `exchange` of each rolled position with
`"SMART"`, leaving its other fields unchanged. -/
theorem filter_positions_in_place (config_symbols : List String) (p : Position) :
    (∀ pp : List (String × List Position),
      (∀ kv ∈ pp, kv.1 ∈ config_symbols) →
      filter_positions config_symbols pp = (Except.ok pp, pp)) ∧
    (∀ (pre rest : List (String × List Position)) (kv : String × List Position),
      (∀ x ∈ pre, x.1 ∈ config_symbols) →
      kv.1 ∉ config_symbols →
      filter_positions config_symbols (pre ++ kv :: rest) =
        (Except.error "RuntimeError: dictionary changed size during iteration",
          pre ++ rest)) ∧
    (roll_position_exchange_update p).contract.exchange = "SMART" ∧
    (roll_position_exchange_update p).contract.symbol = p.contract.symbol ∧
    (roll_position_exchange_update p).contract.lastTradeDateOrContractMonth =
      p.contract.lastTradeDateOrContractMonth ∧
    (roll_position_exchange_update p).contract.strike = p.contract.strike ∧
    (roll_position_exchange_update p).contract.right = p.contract.right ∧
    (roll_position_exchange_update p).position = p.position ∧
    (roll_position_exchange_update p).marketValue = p.marketValue := by
  refine ⟨?_, ?_, rfl, rfl, rfl, rfl, rfl, rfl, rfl⟩
  · intro pp
    induction pp with
    | nil => intro _; rfl
    | cons kv rest ih =>
      intro hall
      have hk : kv.1 ∈ config_symbols := hall kv (List.mem_cons_self kv rest)
      have ihr := ih (fun x hx => hall x (List.mem_cons_of_mem kv hx))
      simp [filter_positions, hk, ihr]
  · intro pre rest kv hpre hkv
    induction pre with
    | nil =>
      simp [filter_positions, hkv]
    | cons x pre ih =>
      have hx : x.1 ∈ config_symbols := hpre x (List.mem_cons_self x pre)
      have ihr := ih (fun y hy => hpre y (List.mem_cons_of_mem x hy))
      simp [filter_positions, hx, ihr]

theorem filter_positions_in_place_witness :
    filter_positions ["A"] [("A", ([] : List Position))] =
      (Except.ok [("A", [])], [("A", [])]) ∧
    filter_positions ["A"] [("A", ([] : List Position)), ("B", []), ("C", [])] =
      (Except.error "RuntimeError: dictionary changed size during iteration",
        [("A", []), ("C", [])]) := by
  have h := filter_positions_in_place ["A"]
    (⟨⟨"X", "20300118", 100, "P", "NYSE", "X"⟩, -1, 5, 3⟩ : Position)
  constructor
  · exact h.1 [("A", [])] (by decide)
  · exact h.2.1 [("A", [])] [("C", [])] ("B", []) (by decide) (by decide)

/-- Source lines 325-330 (closure `valid_strike`): keep strikes at or
below the current price for puts, at or above it for calls; any other
right keeps nothing. -/
def valid_strike (right : String) (tickerValue strike : ℚ) : Bool :=
  if pyStartsWith right "P" then decide (strike ≤ tickerValue)
  else if pyStartsWith right "C" then decide (strike ≥ tickerValue)
  else false

/-- Source lines 342-347 (closure `nearest_strikes`): puts keep the slice
`strikes[-chain_strikes:]`, calls keep `strikes[:chain_strikes]`.  For a
right that is neither, Python falls off the function returning `None` and
the comprehension iterating over it would fault; that branch is modelled
as the empty list and is unreachable from the call sites in the source. -/
def nearest_strikes (right : String) (chain_strikes : Nat) (strikes : List ℚ) : List ℚ :=
  if pyStartsWith right "P" then pySliceFromEnd chain_strikes strikes
  else if pyStartsWith right "C" then pySliceFromStart chain_strikes strikes
  else []

/-- Source lines 390-395 (closure `delta_is_valid`): the Python expression
`ticker.modelGreeks and ticker.modelGreeks.delta and abs(...) <= target`
is falsy when `modelGreeks` is `None`, when `delta` is `None`, and also
when `delta == 0.0`, since zero is falsy in Python. -/
def delta_is_valid (target_delta : ℚ) (ticker : Ticker) : Bool :=
  match ticker.modelGreeks with
  | none => false
  | some greeks =>
    match greeks.delta with
    | none => false
    | some d => decide (d ≠ 0) && decide (|d| ≤ target_delta)

/-- Source lines 367-388 (closure `open_interest_is_valid`), after the
blocking wait for the open-interest fields to populate: puts compare
`putOpenInterest`, calls `callOpenInterest`, against
`target.minimum_open_interest`; any other right yields Python `None`,
which is falsy. -/
def open_interest_is_valid (right : String) (minimum_open_interest : ℚ)
    (ticker : Ticker) : Bool :=
  if pyStartsWith right "P" then decide (ticker.putOpenInterest ≥ minimum_open_interest)
  else if pyStartsWith right "C" then decide (ticker.callOpenInterest ≥ minimum_open_interest)
  else false

/-- The model delta read by the ranking key `abs(t.modelGreeks.delta)` of
source line 401.  The ranking only runs on tickers that passed
`delta_is_valid`, where both fields are present; the `0` defaults are
unreachable there. -/
def modelDelta (ticker : Ticker) : ℚ :=
  match ticker.modelGreeks with
  | some greeks => greeks.delta.getD 0
  | none => 0

/-- Inner sort key of source line 401. -/
def abs_model_delta (ticker : Ticker) : ℚ :=
  |modelDelta ticker|

/-- Outer sort key of source line 402:
`option_dte(t.contract.lastTradeDateOrContractMonth)`. -/
def ticker_dte (option_dte : String → ℤ) (ticker : Ticker) : ℤ :=
  option_dte ticker.contract.lastTradeDateOrContractMonth

/-- Comparison performed by `sorted(tickers, key=lambda t: abs(t.modelGreeks.delta))`. -/
def delta_le (a b : Ticker) : Prop :=
  abs_model_delta a ≤ abs_model_delta b

/-- Comparison performed by `sorted(..., key=lambda t: option_dte(...))`. -/
def dte_le (option_dte : String → ℤ) (a b : Ticker) : Prop :=
  ticker_dte option_dte a ≤ ticker_dte option_dte b

instance : DecidableRel delta_le :=
  fun a b => inferInstanceAs (Decidable (abs_model_delta a ≤ abs_model_delta b))

instance : IsTotal Ticker delta_le :=
  ⟨fun a b => le_total (abs_model_delta a) (abs_model_delta b)⟩

instance : IsTrans Ticker delta_le :=
  ⟨fun _ _ _ hab hbc => le_trans hab hbc⟩

instance (option_dte : String → ℤ) : DecidableRel (dte_le option_dte) :=
  fun a b => inferInstanceAs (Decidable (ticker_dte option_dte a ≤ ticker_dte option_dte b))

instance (option_dte : String → ℤ) : IsTotal Ticker (dte_le option_dte) :=
  ⟨fun a b => le_total (ticker_dte option_dte a) (ticker_dte option_dte b)⟩

instance (option_dte : String → ℤ) : IsTrans Ticker (dte_le option_dte) :=
  ⟨fun _ _ _ hab hbc => le_trans hab hbc⟩

/-- Source lines 400-403:
`sorted(reversed(sorted(tickers, key=abs delta)), key=dte)`.  The Python
`sorted` is stable, and for a total preorder the stably sorted permutation
is unique, so both passes are modelled by the stable `List.insertionSort`;
`reversed` is `List.reverse`. -/
def rank_tickers (option_dte : String → ℤ) (tickers : List Ticker) : List Ticker :=
  List.insertionSort (dte_le option_dte)
    ((List.insertionSort delta_le tickers).reverse)

/-- Source lines 313-399 of `find_eligible_contracts`, up to the ranking:
strike filter and ascending sort, expiration filter / lexicographic sort /
trim to `option_chains.expirations`, strike proximity trim, candidate
cartesian product over `[right] x expirations x strikes`, quoting, delta
filter, open-interest filter.  `qualifyContracts` is modelled as the
identity (resolution succeeds) and `reqTickers` as the `quote` function. -/
def survivors (cfg : SelectorConfig) (option_dte : String → ℤ)
    (symbol right : String) (tickerValue : ℚ) (chain : OptionChain)
    (quote : OptionContract → Ticker) : List Ticker :=
  let strikes := List.insertionSort (fun a b : ℚ => a ≤ b)
    (chain.strikes.filter (fun strike => valid_strike right tickerValue strike))
  let expirations := pySliceFromStart cfg.option_chains_expirations
    (List.insertionSort (fun a b : String => pyStrLe a b = true)
      (chain.expirations.filter (fun exp => decide (option_dte exp ≥ cfg.target_dte))))
  let contracts := expirations.flatMap (fun expiration =>
    (nearest_strikes right cfg.option_chains_strikes strikes).map (fun strike =>
      OptionContract.mk symbol expiration strike right "SMART" chain.tradingClass))
  let tickers := contracts.map quote
  let tickers := tickers.filter (fun t => delta_is_valid cfg.target_delta t)
  tickers.filter (fun t => open_interest_is_valid right cfg.minimum_open_interest t)

/-- Source lines 313-408: the full selector.  After filtering and ranking,
return the first ticker; when no candidate survives, fail with the
`RuntimeError` message of the source, which names the symbol. -/
def find_eligible_contracts (cfg : SelectorConfig) (option_dte : String → ℤ)
    (symbol right : String) (tickerValue : ℚ) (chain : OptionChain)
    (quote : OptionContract → Ticker) : Except String Ticker :=
  match rank_tickers option_dte
      (survivors cfg option_dte symbol right tickerValue chain quote) with
  | [] => Except.error ("No valid contracts found for " ++ symbol ++ ". Aborting.")
  | t :: _ => Except.ok t

/-- Source lines 180-196: `write_puts` selects a put contract via
`find_eligible_contracts` and then submits an order; only the selection
success or failure is modelled. -/
def write_puts (find : String → Except String Ticker) (symbol : String) :
    Except String Unit :=
  match find symbol with
  | Except.error e => Except.error e
  | Except.ok _ => Except.ok ()

theorem rank_tickers_perm (option_dte : String → ℤ) (l : List Ticker) :
    List.Perm (rank_tickers option_dte l) l := by
  unfold rank_tickers
  exact (List.perm_insertionSort _ _).trans
    ((List.reverse_perm _).trans (List.perm_insertionSort _ _))

theorem rank_tickers_eq_nil_iff (option_dte : String → ℤ) (l : List Ticker) :
    rank_tickers option_dte l = [] ↔ l = [] := by
  constructor
  · intro h
    have hlen := (rank_tickers_perm option_dte l).length_eq
    rw [h] at hlen
    exact List.length_eq_zero.mp hlen.symm
  · rintro rfl
    rfl

theorem rank_tickers_sorted (option_dte : String → ℤ) (l : List Ticker) :
    List.Pairwise (dte_le option_dte) (rank_tickers option_dte l) :=
  List.sorted_insertionSort _ _

/-- The head of the ranked list is a member with minimal DTE, and has the
maximal absolute model delta among the members tied at that minimal DTE.
The second part is the stability argument: the ranked list restricted to
the DTE class of the head equals, by stability of the second sort, the reversed
delta-sorted list restricted to the same class, which is ordered by
descending absolute delta. -/
theorem rank_tickers_head_spec (option_dte : String → ℤ) (S : List Ticker)
    (t : Ticker) (rest : List Ticker)
    (h : rank_tickers option_dte S = t :: rest) :
    t ∈ S ∧ (∀ u ∈ S, ticker_dte option_dte t ≤ ticker_dte option_dte u) ∧
    (∀ u ∈ S, ticker_dte option_dte u = ticker_dte option_dte t →
      abs_model_delta u ≤ abs_model_delta t) := by
  have permR := rank_tickers_perm option_dte S
  rw [h] at permR
  have htS : t ∈ S := permR.mem_iff.mp (List.mem_cons_self t rest)
  have sortedR := rank_tickers_sorted option_dte S
  rw [h] at sortedR
  refine ⟨htS, ?_, ?_⟩
  · intro u hu
    rcases List.mem_cons.mp (permR.mem_iff.mpr hu) with hrequ | hmem
    · rw [hrequ]
    · exact List.rel_of_pairwise_cons sortedR hmem
  · intro u hu hdte
    set L := (List.insertionSort delta_le S).reverse with hL
    set pfun : Ticker → Bool :=
      (fun x => decide (ticker_dte option_dte x = ticker_dte option_dte t)) with hpfun
    have hperm2 : List.Perm L S :=
      (List.reverse_perm _).trans (List.perm_insertionSort _ _)
    have hdesc : List.Pairwise (fun a b => delta_le b a) L :=
      List.pairwise_reverse.mpr (List.sorted_insertionSort delta_le S)
    have hcPW : List.Pairwise (dte_le option_dte) (L.filter pfun) := by
      apply List.pairwise_of_forall_mem_list
      intro a ha b hb
      have ha2 : ticker_dte option_dte a = ticker_dte option_dte t :=
        of_decide_eq_true (List.mem_filter.mp ha).2
      have hb2 : ticker_dte option_dte b = ticker_dte option_dte t :=
        of_decide_eq_true (List.mem_filter.mp hb).2
      show ticker_dte option_dte a ≤ ticker_dte option_dte b
      rw [ha2, hb2]
    have hsub : (L.filter pfun).Sublist (rank_tickers option_dte S) :=
      List.sublist_insertionSort hcPW (List.filter_sublist L)
    have hpermRL : List.Perm (rank_tickers option_dte S) L :=
      List.perm_insertionSort (dte_le option_dte) L
    have hcc : (L.filter pfun).filter pfun = L.filter pfun :=
      List.filter_eq_self.mpr (fun a ha => (List.mem_filter.mp ha).2)
    have hsub2 : (L.filter pfun).Sublist ((rank_tickers option_dte S).filter pfun) := by
      have hstep := List.Sublist.filter pfun hsub
      rwa [hcc] at hstep
    have hlen : (L.filter pfun).length =
        ((rank_tickers option_dte S).filter pfun).length :=
      (List.Perm.filter pfun hpermRL).length_eq.symm
    have heq : L.filter pfun = (rank_tickers option_dte S).filter pfun :=
      hsub2.eq_of_length hlen
    have hpt : pfun t = true := by simp [hpfun]
    have hrf : (rank_tickers option_dte S).filter pfun = t :: rest.filter pfun := by
      rw [h, List.filter_cons, hpt]
      simp
    have hdescF : List.Pairwise (fun a b => delta_le b a) (L.filter pfun) :=
      List.Pairwise.sublist (List.filter_sublist L) hdesc
    have huF : u ∈ L.filter pfun :=
      List.mem_filter.mpr ⟨hperm2.mem_iff.mpr hu, decide_eq_true hdte⟩
    rw [heq, hrf] at huF hdescF
    rcases List.mem_cons.mp huF with hrequ | hmem
    · rw [hrequ]
    · exact List.rel_of_pairwise_cons hdescF hmem

theorem find_eligible_contracts_ok_iff (cfg : SelectorConfig)
    (option_dte : String → ℤ) (symbol right : String) (tickerValue : ℚ)
    (chain : OptionChain) (quote : OptionContract → Ticker) (t : Ticker) :
    find_eligible_contracts cfg option_dte symbol right tickerValue chain quote =
        Except.ok t ↔
      ∃ rest, rank_tickers option_dte
          (survivors cfg option_dte symbol right tickerValue chain quote) =
        t :: rest := by
  unfold find_eligible_contracts
  cases hr : rank_tickers option_dte
      (survivors cfg option_dte symbol right tickerValue chain quote) with
  | nil => simp
  | cons a l =>
    constructor
    · intro hok
      have ha : a = t := by simpa using hok
      subst ha
      exact ⟨l, rfl⟩
    · rintro ⟨rest, hrest⟩
      have ha : a = t := (List.cons_eq_cons.mp hrest).1
      subst ha
      rfl

/-- A list whose every element maps to the empty list flat-maps to the
empty list. -/
theorem flatMap_nil_fun (l : List α) :
    (l.flatMap fun _ => ([] : List β)) = [] := by
  induction l with
  | nil => rfl
  | cons a l ih => simp [List.flatMap_cons, ih]

/-- C1: when `find_eligible_contracts` returns a contract, that contract is
a survivor of the delta and open-interest filters with the minimum
days-to-expiration among all survivors; among survivors tied at that
minimum DTE it has the maximum absolute model delta; and the ranked list is
ordered by ascending DTE, so for any two survivors with different DTE the
lower-DTE one is ranked ahead of the higher-DTE one regardless of their
delta magnitudes. -/
theorem find_eligible_contracts_min_dte_then_max_delta (cfg : SelectorConfig)
    (option_dte : String → ℤ) (symbol right : String) (tickerValue : ℚ)
    (chain : OptionChain) (quote : OptionContract → Ticker) (t : Ticker)
    (h : find_eligible_contracts cfg option_dte symbol right tickerValue chain quote =
      Except.ok t) :
    t ∈ survivors cfg option_dte symbol right tickerValue chain quote ∧
    (∀ u ∈ survivors cfg option_dte symbol right tickerValue chain quote,
      ticker_dte option_dte t ≤ ticker_dte option_dte u) ∧
    (∀ u ∈ survivors cfg option_dte symbol right tickerValue chain quote,
      ticker_dte option_dte u = ticker_dte option_dte t →
        abs_model_delta u ≤ abs_model_delta t) ∧
    List.Pairwise (dte_le option_dte)
      (rank_tickers option_dte
        (survivors cfg option_dte symbol right tickerValue chain quote)) := by
  obtain ⟨rest, hrest⟩ :=
    (find_eligible_contracts_ok_iff cfg option_dte symbol right tickerValue chain quote t).mp h
  have hs := rank_tickers_head_spec option_dte _ t rest hrest
  exact ⟨hs.1, hs.2.1, hs.2.2, rank_tickers_sorted _ _⟩

/-- Configuration used by the concrete witnesses:
`target.dte = 10`, `target.delta = 1/2`, `minimum_open_interest = 1`,
two expirations and two strikes per chain. -/
def witness_cfg : SelectorConfig :=
  ⟨10, 1/2, 1, 2, 2⟩

/-- Witness DTE table: the near expiration has 20 days, the far one 45. -/
def witness_dte : String → ℤ :=
  fun e => if e = "20300118" then 20 else 45

/-- Witness chain: strikes 95, 105, 90 (unsorted, 105 is in the money for
a put at price 100) and two expirations (unsorted). -/
def witness_chain : OptionChain :=
  ⟨"AAPL", [95, 105, 90], ["20300215", "20300118"]⟩

/-- Witness quotes: the far expiration carries the larger absolute deltas,
so DTE ranking dominating delta ranking is observable. -/
def witness_quote : OptionContract → Ticker := fun c =>
  { contract := c, marketPrice := 3,
    modelGreeks := some ⟨some (
      if c.lastTradeDateOrContractMonth = "20300118" then
        (if c.strike = 95 then -(1/4) else -(1/10))
      else
        (if c.strike = 95 then -(2/5) else -(3/10)))⟩,
    putOpenInterest := 50, callOpenInterest := 50 }

/-- The contract the witness selector run must pick: nearest expiration,
and among its ties the largest absolute delta (1/4). -/
def witness_best : Ticker :=
  witness_quote ⟨"AAPL", "20300118", 95, "P", "SMART", "AAPL"⟩

theorem find_eligible_contracts_min_dte_then_max_delta_witness :
    find_eligible_contracts witness_cfg witness_dte "AAPL" "P" 100 witness_chain
        witness_quote = Except.ok witness_best ∧
    witness_best ∈ survivors witness_cfg witness_dte "AAPL" "P" 100 witness_chain
        witness_quote ∧
    (∀ u ∈ survivors witness_cfg witness_dte "AAPL" "P" 100 witness_chain witness_quote,
      ticker_dte witness_dte witness_best ≤ ticker_dte witness_dte u) ∧
    (∀ u ∈ survivors witness_cfg witness_dte "AAPL" "P" 100 witness_chain witness_quote,
      ticker_dte witness_dte u = ticker_dte witness_dte witness_best →
        abs_model_delta u ≤ abs_model_delta witness_best) := by
  have hok : find_eligible_contracts witness_cfg witness_dte "AAPL" "P" 100
      witness_chain witness_quote = Except.ok witness_best := by rfl
  have h := find_eligible_contracts_min_dte_then_max_delta witness_cfg witness_dte
    "AAPL" "P" 100 witness_chain witness_quote witness_best hok
  exact ⟨hok, h.1, h.2.1, h.2.2.1⟩

/-- C9: the selector fails exactly when the candidate set surviving all
filter stages is empty - in particular when the chain has no strikes or no
expirations - and the error message names the symbol; it never returns a
placeholder: whenever it returns `Except.ok` the value is the first-ranked
survivor. -/
theorem find_eligible_contracts_error_iff (cfg : SelectorConfig)
    (option_dte : String → ℤ) (symbol right : String) (tickerValue : ℚ)
    (chain : OptionChain) (quote : OptionContract → Ticker) :
    (chain.strikes = [] →
      find_eligible_contracts cfg option_dte symbol right tickerValue chain quote =
        Except.error ("No valid contracts found for " ++ symbol ++ ". Aborting.")) ∧
    (chain.expirations = [] →
      find_eligible_contracts cfg option_dte symbol right tickerValue chain quote =
        Except.error ("No valid contracts found for " ++ symbol ++ ". Aborting.")) ∧
    (survivors cfg option_dte symbol right tickerValue chain quote = [] ↔
      find_eligible_contracts cfg option_dte symbol right tickerValue chain quote =
        Except.error ("No valid contracts found for " ++ symbol ++ ". Aborting.")) ∧
    (∀ t : Ticker,
      find_eligible_contracts cfg option_dte symbol right tickerValue chain quote =
          Except.ok t →
        (rank_tickers option_dte
            (survivors cfg option_dte symbol right tickerValue chain quote)).head? =
          some t ∧
        t ∈ survivors cfg option_dte symbol right tickerValue chain quote) := by
  have herr : survivors cfg option_dte symbol right tickerValue chain quote = [] →
      find_eligible_contracts cfg option_dte symbol right tickerValue chain quote =
        Except.error ("No valid contracts found for " ++ symbol ++ ". Aborting.") := by
    intro hS
    have hr : rank_tickers option_dte
        (survivors cfg option_dte symbol right tickerValue chain quote) = [] :=
      (rank_tickers_eq_nil_iff _ _).mpr hS
    unfold find_eligible_contracts
    rw [hr]
  refine ⟨?_, ?_, ⟨herr, ?_⟩, ?_⟩
  · intro hstrikes
    apply herr
    unfold survivors
    rw [hstrikes]
    simp [nearest_strikes, pySliceFromEnd, pySliceFromStart, List.insertionSort,
      flatMap_nil_fun]
  · intro hexp
    apply herr
    unfold survivors
    rw [hexp]
    simp [pySliceFromStart, List.insertionSort]
  · intro hfe
    cases hr : rank_tickers option_dte
        (survivors cfg option_dte symbol right tickerValue chain quote) with
    | nil => exact (rank_tickers_eq_nil_iff _ _).mp hr
    | cons a l =>
      unfold find_eligible_contracts at hfe
      rw [hr] at hfe
      exact absurd hfe (by simp)
  · intro t hok
    obtain ⟨rest, hrest⟩ :=
      (find_eligible_contracts_ok_iff cfg option_dte symbol right tickerValue
        chain quote t).mp hok
    constructor
    · rw [hrest]
      rfl
    · have hperm := rank_tickers_perm option_dte
        (survivors cfg option_dte symbol right tickerValue chain quote)
      rw [hrest] at hperm
      exact hperm.mem_iff.mp (List.mem_cons_self _ _)

theorem find_eligible_contracts_error_iff_witness :
    find_eligible_contracts witness_cfg witness_dte "XYZ" "P" 100
        ⟨"XYZ", [], []⟩ witness_quote =
      Except.error ("No valid contracts found for " ++ "XYZ" ++ ". Aborting.") := by
  have h := find_eligible_contracts_error_iff witness_cfg witness_dte "XYZ" "P" 100
    ⟨"XYZ", [], []⟩ witness_quote
  exact h.1 rfl

/-- C4 counterexample: a candidate whose model delta is present and equal
to `0`, with `|0| ≤ target.delta`, which the claim says the filter keeps -
but the Python truthiness test `ticker.modelGreeks.delta` treats `0.0` as
falsy, so `delta_is_valid` rejects it. -/
def zero_delta_ticker : Ticker :=
  ⟨⟨"AAPL", "20300118", 95, "P", "SMART", "AAPL"⟩, 3, some ⟨some 0⟩, 50, 50⟩

theorem delta_filter_zero_counterexample :
    zero_delta_ticker.modelGreeks = some ⟨some 0⟩ ∧
    |(0 : ℚ)| ≤ 1/2 ∧
    delta_is_valid (1/2) zero_delta_ticker = false := by
  refine ⟨rfl, by norm_num, rfl⟩

/-- C4 (amended): the delta filter keeps a candidate exactly when its
model delta is present *and nonzero* (Python truthiness makes a zero delta
falsy) and its absolute value is at most `target.delta`; every contract
the selector returns passed that filter, so its model delta is nonzero
with absolute value at most `target.delta`. -/
theorem delta_filter_characterization (cfg : SelectorConfig)
    (option_dte : String → ℤ) (symbol right : String) (tickerValue : ℚ)
    (chain : OptionChain) (quote : OptionContract → Ticker) :
    (∀ ticker : Ticker, delta_is_valid cfg.target_delta ticker = true ↔
      ∃ greeks d, ticker.modelGreeks = some greeks ∧ greeks.delta = some d ∧
        d ≠ 0 ∧ |d| ≤ cfg.target_delta) ∧
    (∀ t : Ticker,
      find_eligible_contracts cfg option_dte symbol right tickerValue chain quote =
          Except.ok t →
        delta_is_valid cfg.target_delta t = true ∧
        modelDelta t ≠ 0 ∧ |modelDelta t| ≤ cfg.target_delta) := by
  have hchar : ∀ ticker : Ticker, delta_is_valid cfg.target_delta ticker = true ↔
      ∃ greeks d, ticker.modelGreeks = some greeks ∧ greeks.delta = some d ∧
        d ≠ 0 ∧ |d| ≤ cfg.target_delta := by
    intro ticker
    cases hg : ticker.modelGreeks with
    | none => simp [delta_is_valid, hg]
    | some greeks =>
      cases hd : greeks.delta with
      | none => simp [delta_is_valid, hg, hd]
      | some d => simp [delta_is_valid, hg, hd]
  refine ⟨hchar, ?_⟩
  intro t hok
  obtain ⟨rest, hrest⟩ :=
    (find_eligible_contracts_ok_iff cfg option_dte symbol right tickerValue
      chain quote t).mp hok
  have hperm := rank_tickers_perm option_dte
    (survivors cfg option_dte symbol right tickerValue chain quote)
  rw [hrest] at hperm
  have htS : t ∈ survivors cfg option_dte symbol right tickerValue chain quote :=
    hperm.mem_iff.mp (List.mem_cons_self _ _)
  simp only [survivors] at htS
  have hdv : delta_is_valid cfg.target_delta t = true :=
    (List.mem_filter.mp (List.mem_filter.mp htS).1).2
  obtain ⟨greeks, d, hg, hd, hdnz, hdle⟩ := (hchar t).mp hdv
  have hmd : modelDelta t = d := by
    simp [modelDelta, hg, hd]
  refine ⟨hdv, ?_, ?_⟩ <;> rw [hmd] <;> assumption

theorem delta_filter_characterization_witness :
    delta_is_valid (1/2) witness_best = true := by
  have h := delta_filter_characterization witness_cfg witness_dte "AAPL" "P" 100
    witness_chain witness_quote
  exact (h.1 witness_best).mpr ⟨⟨some (-(1/4))⟩, -(1/4), rfl, rfl, by norm_num,
    by decide⟩

/-- C10: the nearest-strike trim is asymmetric at the boundary: with
`option_chains.strikes = 0`, a put keeps the entire strike-filtered list
(Python `strikes[-0:]` is the whole list) while a call keeps no strikes
(`strikes[:0]` is empty); for positive `n`, puts keep the last
`min n length` strikes (a suffix: the closest from below the price) and
calls keep the first `min n length` strikes (the closest from above). -/
theorem nearest_strikes_asymmetric (strikes : List ℚ) (n : Nat) :
    nearest_strikes "P" 0 strikes = strikes ∧
    nearest_strikes "C" 0 strikes = [] ∧
    (0 < n →
      nearest_strikes "P" n strikes = strikes.drop (strikes.length - n) ∧
      (nearest_strikes "P" n strikes).length = min n strikes.length ∧
      List.IsSuffix (nearest_strikes "P" n strikes) strikes ∧
      nearest_strikes "C" n strikes = strikes.take n ∧
      (nearest_strikes "C" n strikes).length = min n strikes.length ∧
      nearest_strikes "C" n strikes <+: strikes) := by
  have hPP : pyStartsWith "P" "P" = true := by decide
  have hCP : pyStartsWith "C" "P" = false := by decide
  have hCC : pyStartsWith "C" "C" = true := by decide
  refine ⟨?_, ?_, ?_⟩
  · simp [nearest_strikes, hPP, pySliceFromEnd]
  · simp [nearest_strikes, hCP, hCC, pySliceFromStart]
  · intro hn
    have hn0 : n ≠ 0 := Nat.pos_iff_ne_zero.mp hn
    refine ⟨?_, ?_, ?_, ?_, ?_, ?_⟩
    · simp [nearest_strikes, hPP, pySliceFromEnd, hn0]
    · simp [nearest_strikes, hPP, pySliceFromEnd, hn0]
      omega
    · simp only [nearest_strikes, hPP, pySliceFromEnd, hn0, if_true, if_false,
        ite_false, ite_true]
      exact List.drop_suffix _ _
    · simp [nearest_strikes, hCP, hCC, pySliceFromStart]
    · simp [nearest_strikes, hCP, hCC, pySliceFromStart]
    · simp only [nearest_strikes, hCP, hCC, pySliceFromStart, if_true, if_false,
        ite_false, ite_true, Bool.false_eq_true]
      exact List.take_prefix _ _

theorem nearest_strikes_asymmetric_witness :
    nearest_strikes "P" 0 [(90 : ℚ), 95] = [90, 95] ∧
    nearest_strikes "C" 0 [(90 : ℚ), 95] = [] ∧
    nearest_strikes "P" 1 [(90 : ℚ), 95] = [95] ∧
    nearest_strikes "C" 1 [(90 : ℚ), 95] = [90] := by
  have h := nearest_strikes_asymmetric [(90 : ℚ), 95] 1
  refine ⟨h.1, h.2.1, ?_, ?_⟩
  · rw [(h.2.2 (by norm_num)).1]
    rfl
  · rw [(h.2.2 (by norm_num)).2.2.2.1]
    rfl

/-- Chains for the C7 counterexample: symbol `"AAA"` has an empty chain
(selection must fail), every other symbol gets the witness chain
(selection succeeds). -/
def failing_chains : String → OptionChain := fun s =>
  if s = "AAA" then ⟨"AAA", [], []⟩ else witness_chain

/-- The selector used by the C7 counterexample, over `failing_chains`. -/
def selector_find : String → Except String Ticker := fun sym =>
  find_eligible_contracts witness_cfg witness_dte sym "P" 100
    (failing_chains sym) witness_quote

/-- The per-symbol write used in the C7 counterexample: `write_puts`
backed by the real selector over `failing_chains`. -/
def selector_write : String → Except String Unit := fun s =>
  write_puts selector_find s

/-- A rollable put position on the failing symbol `"AAA"`. -/
def roll_position_a : Position :=
  ⟨⟨"AAA", "20300118", 95, "P", "SMART", "AAA"⟩, -1, 5, 3⟩

/-- A rollable put position on the succeeding symbol `"BBB"`. -/
def roll_position_b : Position :=
  ⟨⟨"BBB", "20300118", 95, "P", "SMART", "BBB"⟩, -1, 5, 3⟩

/-- C7 counterexample: two symbols, both needing puts.  Selection for
`"AAA"` fails with `NoEligibleContract` while selection for `"BBB"` would
succeed, yet the put-writing loop stops at `"AAA"`: the error propagates
out of `check_if_can_write_puts` and `"BBB"` is never attempted.  The
roll loop behaves the same way on two rollable positions: the failing
position ends the loop and the position on `"BBB"` is never rolled.  The
failure of one symbol aborts the processing of the remaining symbols. -/
theorem per_symbol_isolation_counterexample :
    selector_write "BBB" = Except.ok () ∧
    (check_put_writes (fun _ => 0) (fun _ => 1) selector_write ["AAA", "BBB"]).1 =
      Except.error ("No valid contracts found for " ++ "AAA" ++ ". Aborting.") ∧
    (check_put_writes (fun _ => 0) (fun _ => 1) selector_write ["AAA", "BBB"]).2 =
      ["AAA"] ∧
    selector_find "BBB" =
      Except.ok (witness_quote ⟨"BBB", "20300118", 95, "P", "SMART", "AAPL"⟩) ∧
    (roll_positions_loop selector_find [roll_position_a, roll_position_b]).1 =
      Except.error ("No valid contracts found for " ++ "AAA" ++ ". Aborting.") ∧
    (roll_positions_loop selector_find [roll_position_a, roll_position_b]).2 =
      [roll_position_a] := by
  refine ⟨by rfl, by rfl, by rfl, by rfl, by rfl, by rfl⟩

/-- C7 (amended): per-symbol processing is not fault-isolated, in either
loop.  The put-writing loop runs to completion only when no needed write
fails: if every symbol needing puts writes successfully, exactly those
symbols are attempted in order; but as soon as one write fails, the error
propagates immediately - the failing symbol is the last one attempted and
the symbols after it are not processed in that cycle.  The roll loop
behaves identically: it processes every position only when every
selection succeeds, and the first failing selection ends it with the
error. -/
theorem check_put_writes_aborts_on_error (put_count target_put_count_of : String → ℤ)
    (write : String → Except String Unit) (find : String → Except String Ticker) :
    (∀ symbols : List String,
      (∀ s ∈ symbols, put_count s < target_put_count_of s → write s = Except.ok ()) →
      (check_put_writes put_count target_put_count_of write symbols).1 = Except.ok () ∧
      (check_put_writes put_count target_put_count_of write symbols).2 =
        symbols.filter (fun s => decide (put_count s < target_put_count_of s))) ∧
    (∀ (s e : String) (rest : List String),
      put_count s < target_put_count_of s → write s = Except.error e →
      (check_put_writes put_count target_put_count_of write (s :: rest)).1 =
        Except.error e ∧
      (check_put_writes put_count target_put_count_of write (s :: rest)).2 = [s]) ∧
    (∀ positions : List Position,
      (∀ q ∈ positions, ∃ t, find q.contract.symbol = Except.ok t) →
      (roll_positions_loop find positions).1 = Except.ok () ∧
      (roll_positions_loop find positions).2 = positions) ∧
    (∀ (q : Position) (rest : List Position) (e : String),
      find q.contract.symbol = Except.error e →
      (roll_positions_loop find (q :: rest)).1 = Except.error e ∧
      (roll_positions_loop find (q :: rest)).2 = [q]) := by
  refine ⟨?_, ?_, ?_, ?_⟩
  · intro symbols
    induction symbols with
    | nil => intro _; exact ⟨rfl, rfl⟩
    | cons s rest ih =>
      intro hall
      have ihr := ih (fun x hx hlt => hall x (List.mem_cons_of_mem s hx) hlt)
      by_cases hs : put_count s < target_put_count_of s
      · have hw : write s = Except.ok () := hall s (List.mem_cons_self s rest) hs
        constructor
        · simp [check_put_writes, hs, hw, ihr.1]
        · simp [check_put_writes, hs, hw, ihr.2, List.filter_cons]
      · constructor
        · simp [check_put_writes, hs, ihr.1]
        · simp [check_put_writes, hs, ihr.2, List.filter_cons]
  · intro s e rest hlt hw
    constructor <;> simp [check_put_writes, hlt, hw]
  · intro positions
    induction positions with
    | nil => intro _; exact ⟨rfl, rfl⟩
    | cons q rest ih =>
      intro hall
      obtain ⟨t, ht⟩ := hall q (List.mem_cons_self q rest)
      have ihr := ih (fun x hx => hall x (List.mem_cons_of_mem q hx))
      constructor
      · simp [roll_positions_loop, ht, ihr.1]
      · simp [roll_positions_loop, ht, ihr.1, ihr.2]
  · intro q rest e hfind
    constructor <;> simp [roll_positions_loop, hfind]

theorem check_put_writes_aborts_on_error_witness :
    (check_put_writes (fun _ => 0) (fun _ => 1) (fun _ => Except.ok ())
        ["A", "B"]).2 = ["A", "B"] ∧
    (check_put_writes (fun _ => 0) (fun _ => 1) (fun _ => Except.error "boom")
        ["A", "B"]).1 = Except.error "boom" ∧
    (roll_positions_loop (fun _ => Except.ok witness_best)
        [roll_position_a, roll_position_b]).2 = [roll_position_a, roll_position_b] ∧
    (roll_positions_loop (fun _ => Except.error "boom")
        [roll_position_a, roll_position_b]).1 = Except.error "boom" := by
  have h := check_put_writes_aborts_on_error (fun _ => 0) (fun _ => 1)
    (fun _ => Except.ok ()) (fun _ => Except.ok witness_best)
  have h2 := check_put_writes_aborts_on_error (fun _ => 0) (fun _ => 1)
    (fun _ => Except.error "boom") (fun _ => Except.error "boom")
  refine ⟨?_, ?_, ?_, ?_⟩
  · rw [(h.1 ["A", "B"] (fun s _ _ => rfl)).2]
    rfl
  · exact (h2.2.1 "A" "boom" ["B"] (by norm_num) rfl).1
  · exact (h.2.2.1 [roll_position_a, roll_position_b]
      (fun q _ => ⟨witness_best, rfl⟩)).2
  · exact (h2.2.2.2 roll_position_a [roll_position_b] "boom" rfl).1

end ThetaGang
